import Mathlib

/-!
Verification of the checkout URL utility module of `dodopayments-typescript`
(the functional core embedded in `ISSUE_178_ANALYSIS.md`):
`enhanceCheckoutUrl`, `extractLanguageFromUrl`, `isValidLanguageCode`,
`BrowserUtils`, `redirectToCheckout` and `getIframeSafeCheckoutUrl`.

The module reads its URL parser (`globalThis.URL`), navigator and window
surfaces from the ambient JavaScript environment.  Those surfaces are modelled
explicitly: a `URLEnv` bundles the optional URL primitive (parse + serialize),
a `Navigator` value models the user-agent surface, and a boolean models the
presence of a `window`.  JavaScript peculiarities that the source relies on
(`!s` being true for the empty string, `a || b` falling through on the empty
string, `URLSearchParams.set` replacing the first matching pair and dropping
later duplicates) are modelled faithfully.
-/

set_option autoImplicit false

namespace CheckoutUtils

/-- Model of a parsed WHATWG `URL` object as the module uses it: scheme, host,
path and the ordered `searchParams` key/value list. -/
structure JSURL where
  scheme : String
  host : String
  path : String
  searchParams : List (String × String)
  deriving DecidableEq, Repr

/-- `URLSearchParams.get`: value of the first pair with the given name, else null. -/
def paramsGet (ps : List (String × String)) (k : String) : Option String :=
  (ps.find? (fun p => p.1 == k)).map (fun p => p.2)

/-- `URLSearchParams.has`: whether some pair has the given name. -/
def paramsHas (ps : List (String × String)) (k : String) : Bool :=
  ps.any (fun p => p.1 == k)

/-- `URLSearchParams.set`: replace the value of the first pair with the given
name and drop any later pairs with that name; append if the name is absent. -/
def paramsSet : List (String × String) → String → String → List (String × String)
  | [], k, v => [(k, v)]
  | p :: rest, k, v =>
    if p.1 == k then (k, v) :: rest.filter (fun q => !(q.1 == k))
    else p :: paramsSet rest k v

/-- The ambient URL primitive: `hasURL` models whether `globalThis.URL` is
defined; `parse` models `new URL(s)` (`none` = the constructor throws);
`render` models `url.toString()`. -/
structure URLEnv where
  hasURL : Bool
  parse : String → Option JSURL
  render : JSURL → String

/-- The ambient `navigator` surface: `userAgent` and `language` strings. -/
structure Navigator where
  userAgent : String
  language : String
  deriving Repr

/-- JavaScript truthiness of a `string | null | undefined` value:
`null`/`undefined` and the empty string are falsy. -/
def strTruthy : Option String → Bool
  | some s => !(s == "")
  | none => false

/-- JavaScript `a || b` on `string | null` values: yields `b` whenever `a` is
null or the empty string. -/
def jsOrStr (a b : Option String) : Option String :=
  if strTruthy a then a else b

/-- ASCII lower-casing of one character (models `toLowerCase` on the ASCII
range, all the module ever compares). -/
def lowerChar (c : Char) : Char :=
  if 'A' ≤ c && c ≤ 'Z' then Char.ofNat (c.toNat + 32) else c

/-- ASCII `String.toLowerCase`. -/
def strToLower (s : String) : String :=
  String.mk (s.data.map lowerChar)

/-- Substring test on character lists (JavaScript `String.prototype.includes`). -/
def charsContains : List Char → List Char → Bool
  | _, [] => true
  | [], _ :: _ => false
  | c :: rest, pat => (List.isPrefixOf pat (c :: rest)) || charsContains rest pat

/-- JavaScript `s.includes(pat)`. -/
def strIncludes (s pat : String) : Bool :=
  charsContains s.data pat.data

/-- Split a character list at every occurrence of `c` (JavaScript `split`). -/
def splitOnChar (c : Char) : List Char → List (List Char)
  | [] => [[]]
  | x :: xs =>
    if x == c then [] :: splitOnChar c xs
    else
      match splitOnChar c xs with
      | ys :: rest => (x :: ys) :: rest
      | [] => [[x]]

/-- Split a character list at the first occurrence of `c`, if any. -/
def splitFirst (c : Char) : List Char → List Char × Option (List Char)
  | [] => ([], none)
  | x :: xs =>
    if x == c then ([], some xs)
    else
      let r := splitFirst c xs
      (x :: r.1, r.2)

/-- `CheckoutUrlOptions` from the source: optional language, additional
query parameters (a JS record, so keys are unique), and the
`preserveExisting` flag defaulting to true. -/
structure CheckoutUrlOptions where
  language : Option String := none
  additionalParams : List (String × String) := []
  preserveExisting : Bool := true

/-- The `if (language) url.searchParams.set('lang', language)` step of
`enhanceCheckoutUrl`: a falsy (absent or empty) language sets nothing. -/
def applyLanguage (u : JSURL) : Option String → JSURL
  | some l =>
    if l == "" then u
    else { u with searchParams := paramsSet u.searchParams "lang" l }
  | none => u

/-- One iteration of the `Object.entries(additionalParams).forEach` loop of
`enhanceCheckoutUrl`: set the parameter when `preserveExisting` is true or the
key is not already present. -/
def applyParam (preserveExisting : Bool) (u : JSURL) (kv : String × String) : JSURL :=
  if preserveExisting || !(paramsHas u.searchParams kv.1) then
    { u with searchParams := paramsSet u.searchParams kv.1 kv.2 }
  else u

/-- The successful-parse body of `enhanceCheckoutUrl`: the language step
followed by the additional-parameters loop. -/
def enhanceURL (u : JSURL) (opts : CheckoutUrlOptions) : JSURL :=
  opts.additionalParams.foldl (applyParam opts.preserveExisting)
    (applyLanguage u opts.language)

/-- `enhanceCheckoutUrl(checkoutUrl, options)`.  `none` models
`null`/`undefined` input; a falsy (absent or empty) `checkoutUrl` yields null;
a missing URL constructor or a parse failure yields the original string;
otherwise the modified URL is re-serialized. -/
def enhanceCheckoutUrl (env : URLEnv) (checkoutUrl : Option String)
    (opts : CheckoutUrlOptions) : Option String :=
  match checkoutUrl with
  | none => none
  | some s =>
    if s == "" then none
    else if !env.hasURL then some s
    else
      match env.parse s with
      | none => some s
      | some u => some (env.render (enhanceURL u opts))

/-- `extractLanguageFromUrl(checkoutUrl)`: null when the URL constructor is
missing or parsing fails, otherwise the JavaScript chain
`get('lang') || get('language') || get('locale')`. -/
def extractLanguageFromUrl (env : URLEnv) (checkoutUrl : String) : Option String :=
  if !env.hasURL then none
  else
    match env.parse checkoutUrl with
    | none => none
    | some u =>
      jsOrStr (paramsGet u.searchParams "lang")
        (jsOrStr (paramsGet u.searchParams "language")
          (paramsGet u.searchParams "locale"))

/-- Whether `c` is an ASCII lowercase letter (`[a-z]`). -/
def isLowerAlpha (c : Char) : Bool := 'a' ≤ c && c ≤ 'z'

/-- Whether `c` is an ASCII uppercase letter (`[A-Z]`). -/
def isUpperAlpha (c : Char) : Bool := 'A' ≤ c && c ≤ 'Z'

/-- The regex `^[a-z]\x7b2\x7d(-[A-Z]\x7b2\x7d)?$` of `isValidLanguageCode`,
on the character list of the input. -/
def validLangChars : List Char → Bool
  | [a, b] => isLowerAlpha a && isLowerAlpha b
  | [a, b, h, c, d] =>
    isLowerAlpha a && isLowerAlpha b && h == '-' && isUpperAlpha c && isUpperAlpha d
  | _ => false

/-- `isValidLanguageCode(language)`. -/
def isValidLanguageCode (language : String) : Bool :=
  validLangChars language.data

/-- `BrowserUtils.isChromium()`: false with no navigator surface, otherwise a
case-insensitive user-agent test for chrome/chromium/edge markers. -/
def isChromium (nav : Option Navigator) : Bool :=
  match nav with
  | none => false
  | some n =>
    strIncludes (strToLower n.userAgent) "chrome" ||
    strIncludes (strToLower n.userAgent) "chromium" ||
    strIncludes (strToLower n.userAgent) "edge"

/-- `BrowserUtils.isFirefox()`. -/
def isFirefox (nav : Option Navigator) : Bool :=
  match nav with
  | none => false
  | some n => strIncludes (strToLower n.userAgent) "firefox"

/-- `BrowserUtils.needsLanguageWorkaround()`: defined as `this.isChromium()`. -/
def needsLanguageWorkaround (nav : Option Navigator) : Bool :=
  isChromium nav

/-- `BrowserUtils.getPreferredLanguage()`: `"en"` with no navigator or a falsy
language, otherwise the part of `navigator.language` before the first hyphen. -/
def getPreferredLanguage (nav : Option Navigator) : String :=
  match nav with
  | none => "en"
  | some n =>
    if n.language == "" then "en"
    else
      match splitOnChar '-' n.language.data with
      | [] => ""
      | x :: _ => String.mk x

/-- `redirectToCheckout(checkoutUrl, language)`.  `hasWindow` models whether a
`window` surface exists; without one the function throws.  The `ok` payload is
the value assigned to `window.location.href` (`none` when the enhanced URL was
null, in which case no navigation happens). -/
def redirectToCheckout (env : URLEnv) (hasWindow : Bool) (checkoutUrl : String)
    (language : Option String) : Except String (Option String) :=
  if !hasWindow then
    Except.error "redirectToCheckout can only be used in browser environment"
  else
    let opts : CheckoutUrlOptions :=
      if strTruthy language then { language := language } else {}
    match enhanceCheckoutUrl env (some checkoutUrl) opts with
    | some u => Except.ok (some u)
    | none => Except.ok none

/-- `getIframeSafeCheckoutUrl(checkoutUrl, language)`: delegates to
`enhanceCheckoutUrl` with `additionalParams = \x7b embedded: 'true' \x7d`, adding
the language option only when the language argument is truthy.  The TypeScript
annotation of `checkoutUrl` is `string`, but at runtime the value is forwarded
to `enhanceCheckoutUrl` unchanged, so absent input is modelled with `none`. -/
def getIframeSafeCheckoutUrl (env : URLEnv) (checkoutUrl : Option String)
    (language : Option String) : Option String :=
  let base : CheckoutUrlOptions := { additionalParams := [("embedded", "true")] }
  let opts := if strTruthy language then { base with language := language } else base
  enhanceCheckoutUrl env checkoutUrl opts

/-- Modelled from the spec: the ambient WHATWG URL primitive is not part of
this repository (the module reads it from `globalThis`), so a concrete
instance is provided for evaluating the functions on concrete inputs.
`parseSchemeAux` splits off a scheme terminated by `://`. -/
def parseSchemeAux : List Char → Option (List Char × List Char)
  | [] => none
  | ':' :: '/' :: '/' :: rest => some ([], rest)
  | c :: cs =>
    match parseSchemeAux cs with
    | some (sch, rest) => some (c :: sch, rest)
    | none => none

/-- Modelled from the spec: parse one `key=value` query piece. -/
def parseQueryPiece (piece : List Char) : String × String :=
  match splitFirst '=' piece with
  | (k, some v) => (String.mk k, String.mk v)
  | (k, none) => (String.mk k, "")

/-- Modelled from the spec: parse a query string into ordered pairs. -/
def parseQuery (q : List Char) : List (String × String) :=
  (splitOnChar '&' q).filter (fun piece => !(piece == [])) |>.map parseQueryPiece

/-- Modelled from the spec: a concrete `new URL(s)` sufficient for the URL
shapes exercised by the examples (`scheme://host/path?query`). -/
def simpleParse (s : String) : Option JSURL :=
  match parseSchemeAux s.data with
  | none => none
  | some (sch, rest) =>
    if sch == [] then none
    else
      let hp := splitFirst '?' rest
      let params := match hp.2 with
        | none => []
        | some q => parseQuery q
      let hostPath := splitFirst '/' hp.1
      let host := String.mk hostPath.1
      let path := match hostPath.2 with
        | none => ""
        | some p => String.mk ('/' :: p)
      if host == "" then none
      else some ⟨String.mk sch, host, path, params⟩

/-- Modelled from the spec: a concrete `url.toString()` matching `simpleParse`. -/
def simpleRender (u : JSURL) : String :=
  u.scheme ++ "://" ++ u.host ++ u.path ++
    (match u.searchParams with
     | [] => ""
     | ps => "?" ++ String.intercalate "&" (ps.map (fun p => p.1 ++ "=" ++ p.2)))

/-- The concrete environment used for evaluating on concrete inputs: the URL
constructor exists and behaves as `simpleParse`/`simpleRender`. -/
def simpleEnv : URLEnv :=
  ⟨true, simpleParse, simpleRender⟩

end CheckoutUtils

namespace CheckoutUtils

theorem find?_filter_comm {α : Type} (l : List α) (p f : α → Bool)
    (h : ∀ x, p x = true → f x = true) : (l.filter f).find? p = l.find? p := by
  induction l with
  | nil => rfl
  | cons a l ih =>
    cases hf : f a with
    | true =>
      cases hp : p a with
      | true => simp [List.filter_cons, hf, List.find?, hp]
      | false => simp [List.filter_cons, hf, List.find?, hp, ih]
    | false =>
      have hpa : p a = false := by
        cases hpa : p a with
        | false => rfl
        | true => exact absurd (h a hpa) (by simp [hf])
      simp [List.filter_cons, hf, List.find?, hpa, ih]

theorem any_filter_comm {α : Type} (l : List α) (p f : α → Bool)
    (h : ∀ x, p x = true → f x = true) : (l.filter f).any p = l.any p := by
  induction l with
  | nil => rfl
  | cons a l ih =>
    cases hf : f a with
    | true => simp [List.filter_cons, hf, ih]
    | false =>
      have hpa : p a = false := by
        cases hpa : p a with
        | false => rfl
        | true => exact absurd (h a hpa) (by simp [hf])
      simp [List.filter_cons, hf, hpa, ih]

theorem paramsGet_cons (p : String × String) (ps : List (String × String)) (k : String) :
    paramsGet (p :: ps) k = if p.1 == k then some p.2 else paramsGet ps k := by
  cases h : (p.1 == k) <;> simp [paramsGet, List.find?, h]

theorem paramsHas_cons (p : String × String) (ps : List (String × String)) (k : String) :
    paramsHas (p :: ps) k = ((p.1 == k) || paramsHas ps k) := by
  simp [paramsHas]

theorem paramsSet_cons (p : String × String) (ps : List (String × String)) (k v : String) :
    paramsSet (p :: ps) k v =
      if p.1 == k then (k, v) :: ps.filter (fun q => !(q.1 == k))
      else p :: paramsSet ps k v := rfl

theorem paramsGet_set_self (ps : List (String × String)) (k v : String) :
    paramsGet (paramsSet ps k v) k = some v := by
  induction ps with
  | nil => simp [paramsSet, paramsGet, List.find?]
  | cons p rest ih =>
    rw [paramsSet_cons]
    cases h : (p.1 == k) with
    | true => simp [h, paramsGet_cons]
    | false => simp [h, paramsGet_cons, ih]

theorem paramsGet_set_ne (ps : List (String × String)) (k k' v : String)
    (h : k' ≠ k) : paramsGet (paramsSet ps k' v) k = paramsGet ps k := by
  have hback : (k' == k) = false := by simp [h]
  induction ps with
  | nil => simp [paramsSet, paramsGet, List.find?, hback]
  | cons p rest ih =>
    rw [paramsSet_cons]
    cases hp : (p.1 == k') with
    | true =>
      have hp1 : p.1 = k' := by simpa using hp
      have hpk : (p.1 == k) = false := by simp [hp1, h]
      rw [if_pos rfl]
      rw [paramsGet_cons, paramsGet_cons]
      rw [hback, hpk]
      simp only [if_false, Bool.false_eq_true]
      unfold paramsGet
      rw [find?_filter_comm]
      intro x hx
      have hx1 : x.1 = k := by simpa using hx
      simp [hx1, Ne.symm h]
    | false =>
      rw [if_neg (by simp [hp])]
      rw [paramsGet_cons, paramsGet_cons]
      cases hk : (p.1 == k) with
      | true => simp
      | false => simp [ih]

theorem paramsHas_set_ne (ps : List (String × String)) (k k' v : String)
    (h : k' ≠ k) : paramsHas (paramsSet ps k' v) k = paramsHas ps k := by
  have hback : (k' == k) = false := by simp [h]
  induction ps with
  | nil => simp [paramsSet, paramsHas, hback]
  | cons p rest ih =>
    rw [paramsSet_cons]
    cases hp : (p.1 == k') with
    | true =>
      have hp1 : p.1 = k' := by simpa using hp
      have hpk : (p.1 == k) = false := by simp [hp1, h]
      rw [if_pos rfl]
      rw [paramsHas_cons, paramsHas_cons]
      rw [hback, hpk]
      simp only [Bool.false_or]
      unfold paramsHas
      rw [any_filter_comm]
      intro x hx
      have hx1 : x.1 = k := by simpa using hx
      simp [hx1, Ne.symm h]
    | false =>
      rw [if_neg (by simp [hp])]
      rw [paramsHas_cons, paramsHas_cons, ih]

theorem paramsHas_set_self (ps : List (String × String)) (k v : String) :
    paramsHas (paramsSet ps k v) k = true := by
  induction ps with
  | nil => simp [paramsSet, paramsHas]
  | cons p rest ih =>
    rw [paramsSet_cons]
    cases h : (p.1 == k) with
    | true => simp [h, paramsHas_cons]
    | false => simp [h, paramsHas_cons, ih]

end CheckoutUtils

namespace CheckoutUtils

theorem applyParam_frame (b : Bool) (u : JSURL) (kv : String × String) :
    (applyParam b u kv).scheme = u.scheme ∧ (applyParam b u kv).host = u.host ∧
    (applyParam b u kv).path = u.path := by
  unfold applyParam
  split <;> simp

theorem foldl_applyParam_frame (b : Bool) (ps : List (String × String)) (u : JSURL) :
    (ps.foldl (applyParam b) u).scheme = u.scheme ∧
    (ps.foldl (applyParam b) u).host = u.host ∧
    (ps.foldl (applyParam b) u).path = u.path := by
  induction ps generalizing u with
  | nil => exact ⟨rfl, rfl, rfl⟩
  | cons q rest ih =>
    simp only [List.foldl_cons]
    obtain ⟨h1, h2, h3⟩ := ih (applyParam b u q)
    obtain ⟨g1, g2, g3⟩ := applyParam_frame b u q
    exact ⟨h1.trans g1, h2.trans g2, h3.trans g3⟩

theorem applyLanguage_frame (u : JSURL) (lopt : Option String) :
    (applyLanguage u lopt).scheme = u.scheme ∧ (applyLanguage u lopt).host = u.host ∧
    (applyLanguage u lopt).path = u.path := by
  cases lopt with
  | none => exact ⟨rfl, rfl, rfl⟩
  | some l => by_cases hl : l = "" <;> simp [applyLanguage, hl]

theorem enhanceURL_frame (u : JSURL) (opts : CheckoutUrlOptions) :
    (enhanceURL u opts).scheme = u.scheme ∧ (enhanceURL u opts).host = u.host ∧
    (enhanceURL u opts).path = u.path := by
  unfold enhanceURL
  obtain ⟨h1, h2, h3⟩ :=
    foldl_applyParam_frame opts.preserveExisting opts.additionalParams
      (applyLanguage u opts.language)
  obtain ⟨g1, g2, g3⟩ := applyLanguage_frame u opts.language
  exact ⟨h1.trans g1, h2.trans g2, h3.trans g3⟩

theorem applyParam_get_ne (b : Bool) (u : JSURL) (kv : String × String) (k : String)
    (h : kv.1 ≠ k) :
    paramsGet (applyParam b u kv).searchParams k = paramsGet u.searchParams k := by
  unfold applyParam
  split
  · simpa using paramsGet_set_ne u.searchParams k kv.1 kv.2 h
  · rfl

theorem applyParam_has_ne (b : Bool) (u : JSURL) (kv : String × String) (k : String)
    (h : kv.1 ≠ k) :
    paramsHas (applyParam b u kv).searchParams k = paramsHas u.searchParams k := by
  unfold applyParam
  split
  · simpa using paramsHas_set_ne u.searchParams k kv.1 kv.2 h
  · rfl

theorem foldl_applyParam_invariant (b : Bool) (ps : List (String × String)) (u : JSURL)
    (k : String) (h : ∀ p ∈ ps, p.1 ≠ k) :
    paramsGet (ps.foldl (applyParam b) u).searchParams k = paramsGet u.searchParams k ∧
    paramsHas (ps.foldl (applyParam b) u).searchParams k = paramsHas u.searchParams k := by
  induction ps generalizing u with
  | nil => exact ⟨rfl, rfl⟩
  | cons q rest ih =>
    simp only [List.foldl_cons]
    have hq : q.1 ≠ k := h q (List.mem_cons_self q rest)
    obtain ⟨h1, h2⟩ := ih (applyParam b u q) (fun p hp => h p (List.mem_cons_of_mem q hp))
    exact ⟨h1.trans (applyParam_get_ne b u q k hq), h2.trans (applyParam_has_ne b u q k hq)⟩

theorem applyParam_of_cond (b : Bool) (u : JSURL) (kv : String × String)
    (h : (b || !(paramsHas u.searchParams kv.1)) = true) :
    applyParam b u kv = { u with searchParams := paramsSet u.searchParams kv.1 kv.2 } := by
  unfold applyParam
  rw [if_pos h]

theorem applyParam_of_skip (u : JSURL) (kv : String × String)
    (h : paramsHas u.searchParams kv.1 = true) :
    applyParam false u kv = u := by
  unfold applyParam
  rw [if_neg (by simp [h])]

theorem foldl_applyParam_get (b : Bool) (ps : List (String × String)) (u : JSURL)
    (k v : String) (hnd : (ps.map Prod.fst).Nodup) (hmem : (k, v) ∈ ps) :
    (b = true → paramsGet (ps.foldl (applyParam b) u).searchParams k = some v) ∧
    (paramsHas u.searchParams k = false →
      paramsGet (ps.foldl (applyParam b) u).searchParams k = some v) ∧
    (b = false → paramsHas u.searchParams k = true →
      paramsGet (ps.foldl (applyParam b) u).searchParams k = paramsGet u.searchParams k) := by
  induction ps generalizing u with
  | nil => simp at hmem
  | cons q rest ih =>
    simp only [List.foldl_cons]
    simp only [List.map_cons, List.nodup_cons] at hnd
    rcases List.mem_cons.mp hmem with hq | hq
    · subst hq
      have hrest_ne : ∀ p ∈ rest, p.1 ≠ k := by
        intro p hp hcon
        apply hnd.1
        have hmm : p.1 ∈ rest.map Prod.fst := List.mem_map_of_mem Prod.fst hp
        rw [hcon] at hmm
        exact hmm
      refine ⟨fun hb => ?_, fun hh => ?_, fun hb hh => ?_⟩
      · have hcond : (b || !(paramsHas u.searchParams (k, v).1)) = true := by
          simp [hb]
        rw [applyParam_of_cond b u (k, v) hcond]
        rw [(foldl_applyParam_invariant b rest _ k hrest_ne).1]
        simpa using paramsGet_set_self u.searchParams k v
      · have hcond : (b || !(paramsHas u.searchParams (k, v).1)) = true := by
          simp [hh]
        rw [applyParam_of_cond b u (k, v) hcond]
        rw [(foldl_applyParam_invariant b rest _ k hrest_ne).1]
        simpa using paramsGet_set_self u.searchParams k v
      · subst hb
        rw [applyParam_of_skip u (k, v) hh]
        exact (foldl_applyParam_invariant false rest u k hrest_ne).1
    · have hk_mem : k ∈ rest.map Prod.fst := by
        have : (k, v).1 ∈ rest.map Prod.fst := List.mem_map_of_mem Prod.fst hq
        simpa using this
      have hqk : q.1 ≠ k := by
        intro hcon
        apply hnd.1
        rw [hcon]
        exact hk_mem
      obtain ⟨i1, i2, i3⟩ := ih (applyParam b u q) hnd.2 hq
      refine ⟨i1, fun hh => ?_, fun hb hh => ?_⟩
      · exact i2 ((applyParam_has_ne b u q k hqk).trans hh)
      · exact (i3 hb ((applyParam_has_ne b u q k hqk).trans hh)).trans
          (applyParam_get_ne b u q k hqk)

theorem enhanceCheckoutUrl_none (env : URLEnv) (opts : CheckoutUrlOptions) :
    enhanceCheckoutUrl env none opts = none := rfl

theorem enhanceCheckoutUrl_empty (env : URLEnv) (opts : CheckoutUrlOptions) :
    enhanceCheckoutUrl env (some "") opts = none := by
  simp [enhanceCheckoutUrl]

theorem enhanceCheckoutUrl_noURL (env : URLEnv) (opts : CheckoutUrlOptions) (s : String)
    (hs : s ≠ "") (hU : env.hasURL = false) :
    enhanceCheckoutUrl env (some s) opts = some s := by
  simp [enhanceCheckoutUrl, hs, hU]

theorem enhanceCheckoutUrl_parseFail (env : URLEnv) (opts : CheckoutUrlOptions) (s : String)
    (hs : s ≠ "") (hp : env.parse s = none) :
    enhanceCheckoutUrl env (some s) opts = some s := by
  cases hU : env.hasURL <;> simp [enhanceCheckoutUrl, hs, hU, hp]

theorem enhanceCheckoutUrl_parseOk (env : URLEnv) (opts : CheckoutUrlOptions) (s : String)
    (u : JSURL) (hs : s ≠ "") (hU : env.hasURL = true) (hp : env.parse s = some u) :
    enhanceCheckoutUrl env (some s) opts = some (env.render (enhanceURL u opts)) := by
  simp [enhanceCheckoutUrl, hs, hU, hp]

theorem applyLanguage_set (u : JSURL) (l : String) (hl : l ≠ "") :
    applyLanguage u (some l) = { u with searchParams := paramsSet u.searchParams "lang" l } := by
  simp [applyLanguage, hl]

theorem enhanceURL_language_only (u : JSURL) (lopt : Option String) :
    enhanceURL u { language := lopt } = applyLanguage u lopt := rfl

end CheckoutUtils

namespace CheckoutUtils

/-- C1 (amended): for every URL string that parses successfully and every
nonempty language string, `enhanceCheckoutUrl(url, \x7blanguage\x7d)` returns the
re-serialization of a URL whose `lang` query parameter equals that language
(overwriting any existing value) and whose scheme, host and path are unchanged
from the parsed input.  (The unamended claim fails for the empty language
string, which JavaScript treats as falsy, so no `lang` parameter is set.) -/
theorem C1_enhance_sets_lang (env : URLEnv) (s : String) (u : JSURL) (l : String)
    (hs : s ≠ "") (hU : env.hasURL = true) (hp : env.parse s = some u) (hl : l ≠ "") :
    enhanceCheckoutUrl env (some s) { language := some l } =
      some (env.render (enhanceURL u { language := some l })) ∧
    paramsGet (enhanceURL u { language := some l }).searchParams "lang" = some l ∧
    (enhanceURL u { language := some l }).scheme = u.scheme ∧
    (enhanceURL u { language := some l }).host = u.host ∧
    (enhanceURL u { language := some l }).path = u.path := by
  obtain ⟨f1, f2, f3⟩ := enhanceURL_frame u { language := some l }
  refine ⟨enhanceCheckoutUrl_parseOk env _ s u hs hU hp, ?_, f1, f2, f3⟩
  rw [enhanceURL_language_only, applyLanguage_set u l hl]
  exact paramsGet_set_self u.searchParams "lang" l

/-- Witness for C1 at `https://pay.example/c/abc?lang=en` with language `de`:
the existing `lang=en` is overwritten. -/
theorem C1_enhance_sets_lang_witness :
    ("https://pay.example/c/abc?lang=en" ≠ "" ∧ simpleEnv.hasURL = true ∧
      simpleEnv.parse "https://pay.example/c/abc?lang=en" =
        some ⟨"https", "pay.example", "/c/abc", [("lang", "en")]⟩ ∧ "de" ≠ "") ∧
    (enhanceCheckoutUrl simpleEnv (some "https://pay.example/c/abc?lang=en")
        { language := some "de" } =
      some (simpleEnv.render (enhanceURL ⟨"https", "pay.example", "/c/abc", [("lang", "en")]⟩
        { language := some "de" })) ∧
    paramsGet (enhanceURL ⟨"https", "pay.example", "/c/abc", [("lang", "en")]⟩
        { language := some "de" }).searchParams "lang" = some "de" ∧
    (enhanceURL ⟨"https", "pay.example", "/c/abc", [("lang", "en")]⟩
        { language := some "de" }).scheme = "https" ∧
    (enhanceURL ⟨"https", "pay.example", "/c/abc", [("lang", "en")]⟩
        { language := some "de" }).host = "pay.example" ∧
    (enhanceURL ⟨"https", "pay.example", "/c/abc", [("lang", "en")]⟩
        { language := some "de" }).path = "/c/abc") :=
  ⟨⟨by decide, by decide, by decide, by decide⟩,
    C1_enhance_sets_lang simpleEnv "https://pay.example/c/abc?lang=en"
      ⟨"https", "pay.example", "/c/abc", [("lang", "en")]⟩ "de"
      (by decide) (by decide) (by decide) (by decide)⟩

/-- The unamended C1 is false for the empty language string: the URL parses,
yet no `lang` parameter is set (the result is the unmodified URL, whose
`lang` parameter is absent rather than equal to `""`). -/
theorem C1_empty_language_counterexample :
    simpleEnv.parse "https://pay.example/c/abc" =
      some ⟨"https", "pay.example", "/c/abc", []⟩ ∧
    enhanceCheckoutUrl simpleEnv (some "https://pay.example/c/abc")
      { language := some "" } = some "https://pay.example/c/abc" ∧
    paramsGet ([] : List (String × String)) "lang" ≠ some "" := by
  decide

/-- C2 (amended): `enhanceCheckoutUrl` is total; for absent input (null or
undefined) it returns null; for the empty input string — which is falsy in
JavaScript and therefore taken by the `!checkoutUrl` guard — it also returns
null; for every nonempty input string it returns the original string when no
URL parser is available or when parsing fails. -/
theorem C2_enhance_fail_soft (env : URLEnv) (opts : CheckoutUrlOptions) (s : String) :
    enhanceCheckoutUrl env none opts = none ∧
    enhanceCheckoutUrl env (some "") opts = none ∧
    (s ≠ "" → env.hasURL = false → enhanceCheckoutUrl env (some s) opts = some s) ∧
    (s ≠ "" → env.parse s = none → enhanceCheckoutUrl env (some s) opts = some s) :=
  ⟨enhanceCheckoutUrl_none env opts, enhanceCheckoutUrl_empty env opts,
    fun hs hU => enhanceCheckoutUrl_noURL env opts s hs hU,
    fun hs hp => enhanceCheckoutUrl_parseFail env opts s hs hp⟩

/-- Witness for C2: `"not a url"` fails to parse and is returned unchanged. -/
theorem C2_enhance_fail_soft_witness :
    ("not a url" ≠ "" ∧ simpleEnv.parse "not a url" = none) ∧
    enhanceCheckoutUrl simpleEnv (some "not a url") {} = some "not a url" :=
  ⟨by decide, (C2_enhance_fail_soft simpleEnv {} "not a url").2.2.2 (by decide) (by decide)⟩

/-- The unamended C2 is false at the empty input string: it fails to parse
(`new URL("")` throws), yet the function returns null rather than the
original string. -/
theorem C2_empty_string_counterexample :
    simpleEnv.parse "" = none ∧
    enhanceCheckoutUrl simpleEnv (some "") {} ≠ some "" := by
  decide

end CheckoutUtils

namespace CheckoutUtils

/-- C3 (amended): `extractLanguageFromUrl` returns the first of the query
parameters `lang`, `language`, `locale` that is present with a nonempty value,
in that priority order; a candidate present with an empty value is skipped,
because the JavaScript `||` chain treats the empty string as falsy; once
`lang` and `language` are empty or absent the result is exactly the `locale`
lookup (null when absent, its value — possibly empty — when present); and the
result is null when no parser is available or the URL fails to parse.
(The unamended claim fails when `lang` is present with an empty value.) -/
theorem C3_extract_priority (env : URLEnv) (s : String) :
    (env.hasURL = false → extractLanguageFromUrl env s = none) ∧
    (env.parse s = none → extractLanguageFromUrl env s = none) ∧
    (∀ u l, env.hasURL = true → env.parse s = some u →
      paramsGet u.searchParams "lang" = some l → l ≠ "" →
      extractLanguageFromUrl env s = some l) ∧
    (∀ u l, env.hasURL = true → env.parse s = some u →
      strTruthy (paramsGet u.searchParams "lang") = false →
      paramsGet u.searchParams "language" = some l → l ≠ "" →
      extractLanguageFromUrl env s = some l) ∧
    (∀ u, env.hasURL = true → env.parse s = some u →
      strTruthy (paramsGet u.searchParams "lang") = false →
      strTruthy (paramsGet u.searchParams "language") = false →
      extractLanguageFromUrl env s = paramsGet u.searchParams "locale") := by
  refine ⟨fun hU => ?_, fun hp => ?_, fun u l hU hp hg hl => ?_,
    fun u l hU hp hb hg hl => ?_, fun u hU hp h1 h2 => ?_⟩
  · simp [extractLanguageFromUrl, hU]
  · cases hU : env.hasURL <;> simp [extractLanguageFromUrl, hU, hp]
  · simp [extractLanguageFromUrl, hU, hp, hg, jsOrStr, strTruthy, hl]
  · have hx : extractLanguageFromUrl env s =
        jsOrStr (paramsGet u.searchParams "lang")
          (jsOrStr (paramsGet u.searchParams "language")
            (paramsGet u.searchParams "locale")) := by
      simp [extractLanguageFromUrl, hU, hp]
    rw [hx]
    simp only [jsOrStr]
    rw [if_neg (by simp [hb]), hg, if_pos (by simp [strTruthy, hl])]
  · simp [extractLanguageFromUrl, hU, hp, h1, h2, jsOrStr]

/-- Witness for C3 at the spec's priority example: `language=es` and
`locale=fr` with no `lang` yields `es`. -/
theorem C3_extract_priority_witness :
    (simpleEnv.hasURL = true ∧
      simpleEnv.parse "https://pay.example/c?language=es&locale=fr" =
        some ⟨"https", "pay.example", "/c", [("language", "es"), ("locale", "fr")]⟩ ∧
      strTruthy (paramsGet [("language", "es"), ("locale", "fr")] "lang") = false ∧
      paramsGet [("language", "es"), ("locale", "fr")] "language" = some "es" ∧
      "es" ≠ "") ∧
    extractLanguageFromUrl simpleEnv "https://pay.example/c?language=es&locale=fr" =
      some "es" :=
  ⟨⟨by decide, by decide, by decide, by decide, by decide⟩,
    (C3_extract_priority simpleEnv "https://pay.example/c?language=es&locale=fr").2.2.2.1
      ⟨"https", "pay.example", "/c", [("language", "es"), ("locale", "fr")]⟩ "es"
      (by decide) (by decide) (by decide) (by decide) (by decide)⟩

/-- The unamended C3 is false when `lang` is present with an empty value: the
URL parses, `lang` is found (with value `""`), yet the function returns the
`locale` value `fr` instead of the found `lang` value. -/
theorem C3_empty_lang_counterexample :
    simpleEnv.parse "https://pay.example/c?lang=&locale=fr" =
      some ⟨"https", "pay.example", "/c", [("lang", ""), ("locale", "fr")]⟩ ∧
    paramsGet [("lang", ""), ("locale", "fr")] "lang" = some "" ∧
    extractLanguageFromUrl simpleEnv "https://pay.example/c?lang=&locale=fr" =
      some "fr" := by
  decide

/-- C4: for every parseable URL and every entry `(k, v)` of `additionalParams`
(a JavaScript record, so its keys are pairwise distinct): with
`preserveExisting = true` the enhanced URL's parameter `k` equals `v` even if
`k` already existed; with `preserveExisting = false` an existing parameter `k`
keeps its original value and `k` is set to `v` only when not already present. -/
theorem C4_preserve_existing (env : URLEnv) (s : String) (u : JSURL)
    (ps : List (String × String)) (k v : String) (b : Bool)
    (hs : s ≠ "") (hU : env.hasURL = true) (hp : env.parse s = some u)
    (hnd : (ps.map Prod.fst).Nodup) (hmem : (k, v) ∈ ps) :
    enhanceCheckoutUrl env (some s) { additionalParams := ps, preserveExisting := b } =
      some (env.render (enhanceURL u { additionalParams := ps, preserveExisting := b })) ∧
    (b = true →
      paramsGet (enhanceURL u
        { additionalParams := ps, preserveExisting := b }).searchParams k = some v) ∧
    (b = false → paramsHas u.searchParams k = false →
      paramsGet (enhanceURL u
        { additionalParams := ps, preserveExisting := b }).searchParams k = some v) ∧
    (b = false → paramsHas u.searchParams k = true →
      paramsGet (enhanceURL u
        { additionalParams := ps, preserveExisting := b }).searchParams k =
        paramsGet u.searchParams k) := by
  have hfold := foldl_applyParam_get b ps u k v hnd hmem
  have he : enhanceURL u { additionalParams := ps, preserveExisting := b } =
      ps.foldl (applyParam b) u := rfl
  rw [he]
  exact ⟨enhanceCheckoutUrl_parseOk env _ s u hs hU hp,
    hfold.1, fun _ hh => hfold.2.1 hh, fun hb hh => hfold.2.2 hb hh⟩

/-- Witness for C4 at the spec's example: an existing `foo=bar` with
`additionalParams \x7bfoo: baz\x7d` is overwritten under `preserveExisting = true`
and kept under `preserveExisting = false`. -/
theorem C4_preserve_existing_witness :
    ("https://pay.example/c?foo=bar" ≠ "" ∧ simpleEnv.hasURL = true ∧
      simpleEnv.parse "https://pay.example/c?foo=bar" =
        some ⟨"https", "pay.example", "/c", [("foo", "bar")]⟩ ∧
      ([("foo", "baz")].map Prod.fst).Nodup ∧ ("foo", "baz") ∈ [("foo", "baz")]) ∧
    paramsGet (enhanceURL ⟨"https", "pay.example", "/c", [("foo", "bar")]⟩
      { additionalParams := [("foo", "baz")],
        preserveExisting := true }).searchParams "foo" = some "baz" ∧
    paramsGet (enhanceURL ⟨"https", "pay.example", "/c", [("foo", "bar")]⟩
      { additionalParams := [("foo", "baz")],
        preserveExisting := false }).searchParams "foo" = some "bar" :=
  ⟨⟨by decide, by decide, by decide, by decide, by decide⟩,
    (C4_preserve_existing simpleEnv "https://pay.example/c?foo=bar"
      ⟨"https", "pay.example", "/c", [("foo", "bar")]⟩ [("foo", "baz")] "foo" "baz" true
      (by decide) (by decide) (by decide) (by decide) (by decide)).2.1 rfl,
    ((C4_preserve_existing simpleEnv "https://pay.example/c?foo=bar"
      ⟨"https", "pay.example", "/c", [("foo", "bar")]⟩ [("foo", "baz")] "foo" "baz" false
      (by decide) (by decide) (by decide) (by decide) (by decide)).2.2.2 rfl
      (by decide)).trans (by decide)⟩

/-- C5: round-trip — for every URL string that parses successfully, in an
environment whose URL primitive re-parses its own serialization of the
enhanced URL (as the browser `URL` does), `extractLanguageFromUrl` applied to
the result of `enhanceCheckoutUrl(u, \x7blanguage: "de"\x7d)` returns `"de"`. -/
theorem C5_round_trip (env : URLEnv) (s : String) (u : JSURL)
    (hs : s ≠ "") (hU : env.hasURL = true) (hp : env.parse s = some u)
    (hrt : env.parse (env.render (enhanceURL u { language := some "de" })) =
      some (enhanceURL u { language := some "de" })) :
    enhanceCheckoutUrl env (some s) { language := some "de" } =
      some (env.render (enhanceURL u { language := some "de" })) ∧
    extractLanguageFromUrl env
      (env.render (enhanceURL u { language := some "de" })) = some "de" := by
  refine ⟨enhanceCheckoutUrl_parseOk env _ s u hs hU hp, ?_⟩
  have hg : paramsGet (enhanceURL u { language := some "de" }).searchParams "lang" =
      some "de" := by
    rw [enhanceURL_language_only, applyLanguage_set u "de" (by decide)]
    exact paramsGet_set_self u.searchParams "lang" "de"
  simp [extractLanguageFromUrl, hU, hrt, hg, jsOrStr, strTruthy]

/-- Witness for C5 at `https://pay.example/c/abc`: enhancing with `de` and
extracting yields `de`. -/
theorem C5_round_trip_witness :
    ("https://pay.example/c/abc" ≠ "" ∧ simpleEnv.hasURL = true ∧
      simpleEnv.parse "https://pay.example/c/abc" =
        some ⟨"https", "pay.example", "/c/abc", []⟩ ∧
      simpleEnv.parse (simpleEnv.render (enhanceURL ⟨"https", "pay.example", "/c/abc", []⟩
        { language := some "de" })) =
        some (enhanceURL ⟨"https", "pay.example", "/c/abc", []⟩ { language := some "de" })) ∧
    (enhanceCheckoutUrl simpleEnv (some "https://pay.example/c/abc")
        { language := some "de" } =
      some (simpleEnv.render (enhanceURL ⟨"https", "pay.example", "/c/abc", []⟩
        { language := some "de" })) ∧
    extractLanguageFromUrl simpleEnv
      (simpleEnv.render (enhanceURL ⟨"https", "pay.example", "/c/abc", []⟩
        { language := some "de" })) = some "de") :=
  ⟨⟨by decide, by decide, by decide, by decide⟩,
    C5_round_trip simpleEnv "https://pay.example/c/abc"
      ⟨"https", "pay.example", "/c/abc", []⟩
      (by decide) (by decide) (by decide) (by decide)⟩

end CheckoutUtils

namespace CheckoutUtils

/-- The shape stated by the claim for `isValidLanguageCode`. -/
def IsLangShape (s : String) : Prop :=
  (∃ a b : Char, s.data = [a, b] ∧ isLowerAlpha a = true ∧ isLowerAlpha b = true) ∨
  (∃ a b c d : Char, s.data = [a, b, '-', c, d] ∧ isLowerAlpha a = true ∧
    isLowerAlpha b = true ∧ isUpperAlpha c = true ∧ isUpperAlpha d = true)

theorem C6_valid_language_code :
    (∀ s : String, isValidLanguageCode s = true ↔ IsLangShape s) ∧
    isValidLanguageCode "de" = true ∧ isValidLanguageCode "EN" = false ∧
    isValidLanguageCode "en-US" = true ∧ isValidLanguageCode "" = false ∧
    isValidLanguageCode "eng" = false := by
  refine ⟨fun s => ?_, by decide, by decide, by decide, by decide, by decide⟩
  unfold isValidLanguageCode IsLangShape
  rcases hl : s.data with _ | ⟨a, _ | ⟨b, _ | ⟨h, _ | ⟨c, _ | ⟨d, _ | ⟨e, rest⟩⟩⟩⟩⟩⟩ <;>
    simp [hl, validLangChars, Bool.and_eq_true, beq_iff_eq] <;> aesop

end CheckoutUtils

namespace CheckoutUtils

/-- C7 (amended): for every parseable checkout URL,
`getIframeSafeCheckoutUrl` sets `embedded=true` in the result — both with and
without a language argument — and additionally sets `lang` to the given
language when a nonempty one is supplied; for absent input it returns null and
for a nonempty unparseable input it returns the original string, exactly as
`enhanceCheckoutUrl` does.  (The unamended claim fails when the supplied
language is the empty string, which JavaScript treats as falsy, so no `lang`
parameter is set.) -/
theorem C7_iframe_safe (env : URLEnv) (s : String) (u : JSURL) (l : String)
    (hs : s ≠ "") (hU : env.hasURL = true) (hp : env.parse s = some u) (hl : l ≠ "") :
    (getIframeSafeCheckoutUrl env (some s) (some l) =
      some (env.render (enhanceURL u
        { language := some l, additionalParams := [("embedded", "true")] })) ∧
     paramsGet (enhanceURL u
        { language := some l,
          additionalParams := [("embedded", "true")] }).searchParams "embedded" =
       some "true" ∧
     paramsGet (enhanceURL u
        { language := some l,
          additionalParams := [("embedded", "true")] }).searchParams "lang" = some l) ∧
    (getIframeSafeCheckoutUrl env (some s) none =
      some (env.render (enhanceURL u { additionalParams := [("embedded", "true")] })) ∧
     paramsGet (enhanceURL u
        { additionalParams := [("embedded", "true")] }).searchParams "embedded" =
       some "true") ∧
    (∀ lopt, getIframeSafeCheckoutUrl env none lopt = none) ∧
    (∀ t lopt, t ≠ "" → env.parse t = none →
      getIframeSafeCheckoutUrl env (some t) lopt = some t) := by
  have htruthy : strTruthy (some l) = true := by simp [strTruthy, hl]
  have hopts : getIframeSafeCheckoutUrl env (some s) (some l) =
      enhanceCheckoutUrl env (some s)
        { language := some l, additionalParams := [("embedded", "true")] } := by
    simp [getIframeSafeCheckoutUrl, htruthy]
  have hopts0 : getIframeSafeCheckoutUrl env (some s) none =
      enhanceCheckoutUrl env (some s) { additionalParams := [("embedded", "true")] } := by
    simp [getIframeSafeCheckoutUrl, strTruthy]
  have hset : enhanceURL u { language := some l, additionalParams := [("embedded", "true")] }
      = { u with searchParams :=
            paramsSet (paramsSet u.searchParams "lang" l) "embedded" "true" } := by
    show List.foldl (applyParam true) (applyLanguage u (some l)) [("embedded", "true")] = _
    rw [applyLanguage_set u l hl]
    rw [List.foldl_cons, List.foldl_nil, applyParam_of_cond true _ _ (by simp)]
  have hset0 : enhanceURL u { additionalParams := [("embedded", "true")] }
      = { u with searchParams := paramsSet u.searchParams "embedded" "true" } := by
    show List.foldl (applyParam true) (applyLanguage u none) [("embedded", "true")] = _
    rw [List.foldl_cons, List.foldl_nil, applyParam_of_cond true _ _ (by simp)]
    rfl
  refine ⟨⟨?_, ?_, ?_⟩, ⟨?_, ?_⟩, fun lopt => rfl, fun t lopt ht hpt => ?_⟩
  · rw [hopts]
    exact enhanceCheckoutUrl_parseOk env _ s u hs hU hp
  · rw [hset]
    exact paramsGet_set_self _ "embedded" "true"
  · rw [hset]
    exact (paramsGet_set_ne _ "lang" "embedded" "true" (by decide)).trans
      (paramsGet_set_self u.searchParams "lang" l)
  · rw [hopts0]
    exact enhanceCheckoutUrl_parseOk env _ s u hs hU hp
  · rw [hset0]
    exact paramsGet_set_self _ "embedded" "true"
  · exact enhanceCheckoutUrl_parseFail env _ t ht hpt

/-- Witness for C7 at the spec example `("https://pay.example/c/abc", "de")`:
the result carries both `embedded=true` and `lang=de`. -/
theorem C7_iframe_safe_witness :
    ("https://pay.example/c/abc" ≠ "" ∧ simpleEnv.hasURL = true ∧
      simpleEnv.parse "https://pay.example/c/abc" =
        some ⟨"https", "pay.example", "/c/abc", []⟩ ∧ "de" ≠ "") ∧
    getIframeSafeCheckoutUrl simpleEnv (some "https://pay.example/c/abc") (some "de") =
      some (simpleEnv.render (enhanceURL ⟨"https", "pay.example", "/c/abc", []⟩
        { language := some "de", additionalParams := [("embedded", "true")] })) ∧
    paramsGet (enhanceURL ⟨"https", "pay.example", "/c/abc", []⟩
      { language := some "de",
        additionalParams := [("embedded", "true")] }).searchParams "embedded" =
      some "true" ∧
    paramsGet (enhanceURL ⟨"https", "pay.example", "/c/abc", []⟩
      { language := some "de",
        additionalParams := [("embedded", "true")] }).searchParams "lang" = some "de" :=
  ⟨⟨by decide, by decide, by decide, by decide⟩,
    (C7_iframe_safe simpleEnv "https://pay.example/c/abc"
      ⟨"https", "pay.example", "/c/abc", []⟩ "de"
      (by decide) (by decide) (by decide) (by decide)).1⟩

/-- The unamended C7 is false when the supplied language is the empty string:
the result still carries `embedded=true` but no `lang` parameter at all. -/
theorem C7_empty_language_counterexample :
    getIframeSafeCheckoutUrl simpleEnv (some "https://pay.example/c/abc") (some "") =
      some "https://pay.example/c/abc?embedded=true" ∧
    simpleEnv.parse "https://pay.example/c/abc?embedded=true" =
      some ⟨"https", "pay.example", "/c/abc", [("embedded", "true")]⟩ ∧
    paramsGet [("embedded", "true")] "lang" = none := by
  decide

/-- C8: `redirectToCheckout` fails with the unsupported-environment error
exactly when no window surface exists, that error is the only error it can
produce, and with a window present it always succeeds.  (The other operations
— `enhanceCheckoutUrl`, `extractLanguageFromUrl`, `isValidLanguageCode`,
`getIframeSafeCheckoutUrl` and the `BrowserUtils` predicates — are total
functions of this embedding returning plain values, which is the non-throwing
half of the claim.) -/
theorem C8_redirect_error_iff (env : URLEnv) (hasWindow : Bool) (s : String)
    (lopt : Option String) :
    (redirectToCheckout env hasWindow s lopt =
        Except.error "redirectToCheckout can only be used in browser environment"
      ↔ hasWindow = false) ∧
    (∀ e, redirectToCheckout env hasWindow s lopt = Except.error e →
      e = "redirectToCheckout can only be used in browser environment") ∧
    (hasWindow = true →
      redirectToCheckout env hasWindow s lopt ≠
        Except.error "redirectToCheckout can only be used in browser environment") := by
  cases hasWindow with
  | false =>
    have h0 : redirectToCheckout env false s lopt =
        Except.error "redirectToCheckout can only be used in browser environment" := rfl
    refine ⟨by simp [h0], fun e he => ?_, fun hcon => by cases hcon⟩
    rw [h0] at he
    injection he with h
    exact h.symm
  | true =>
    have hred : redirectToCheckout env true s lopt =
        match enhanceCheckoutUrl env (some s)
          (if strTruthy lopt then { language := lopt } else {}) with
        | some u => Except.ok (some u)
        | none => Except.ok none := rfl
    refine ⟨?_, fun e he => ?_, fun _ => ?_⟩
    · rw [hred]
      cases enhanceCheckoutUrl env (some s)
        (if strTruthy lopt then { language := lopt } else {}) <;> simp
    · rw [hred] at he
      cases henh : enhanceCheckoutUrl env (some s)
          (if strTruthy lopt then { language := lopt } else {}) <;>
        rw [henh] at he <;> cases he
    · rw [hred]
      cases enhanceCheckoutUrl env (some s)
        (if strTruthy lopt then { language := lopt } else {}) <;> simp

/-- Witness for C8: without a window surface the call errors; with one it
does not. -/
theorem C8_redirect_error_iff_witness :
    redirectToCheckout simpleEnv false "https://pay.example/c/abc" none =
      Except.error "redirectToCheckout can only be used in browser environment" ∧
    (true = true ∧
      redirectToCheckout simpleEnv true "https://pay.example/c/abc" none ≠
        Except.error "redirectToCheckout can only be used in browser environment") :=
  ⟨(C8_redirect_error_iff simpleEnv false "https://pay.example/c/abc" none).1.mpr rfl,
    ⟨rfl, (C8_redirect_error_iff simpleEnv true "https://pay.example/c/abc" none).2.2 rfl⟩⟩

/-- C9: `isChromium` is true exactly when a navigator surface exists and its
user agent, lower-cased, contains one of the markers `chrome`, `chromium` or
`edge`; it is false (a value, not an exception) when no navigator is
available; and `needsLanguageWorkaround` coincides with `isChromium` on every
environment. -/
theorem C9_chromium_detection (nav : Option Navigator) :
    (isChromium nav = true ↔ ∃ n, nav = some n ∧
      (strIncludes (strToLower n.userAgent) "chrome" = true ∨
       strIncludes (strToLower n.userAgent) "chromium" = true ∨
       strIncludes (strToLower n.userAgent) "edge" = true)) ∧
    isChromium none = false ∧
    needsLanguageWorkaround nav = isChromium nav := by
  refine ⟨?_, rfl, rfl⟩
  cases nav with
  | none => simp [isChromium]
  | some n => simp [isChromium, Bool.or_eq_true, or_assoc]

/-- C10 (amended): `extractLanguageFromUrl` treats an empty-valued `lang` as
falsy and falls through to `language` and then `locale`; when `lang` and
`language` are both empty-or-absent the result is exactly the `locale`
lookup, so the function returns null when all present candidates are empty
only if `locale` is among the absent ones — when `locale` itself is present
with an empty value the result is the empty string, not null.  (The unamended
claim's final clause fails in that case.) -/
theorem C10_empty_fallthrough (env : URLEnv) (s : String) (u : JSURL)
    (hU : env.hasURL = true) (hp : env.parse s = some u)
    (hlang : paramsGet u.searchParams "lang" = some "") :
    extractLanguageFromUrl env s =
      jsOrStr (paramsGet u.searchParams "language") (paramsGet u.searchParams "locale") ∧
    (strTruthy (paramsGet u.searchParams "language") = false →
      paramsGet u.searchParams "locale" = none →
      extractLanguageFromUrl env s = none) ∧
    (strTruthy (paramsGet u.searchParams "language") = false →
      paramsGet u.searchParams "locale" = some "" →
      extractLanguageFromUrl env s = some "") := by
  have h1 : strTruthy (paramsGet u.searchParams "lang") = false := by
    rw [hlang]
    decide
  have hx : extractLanguageFromUrl env s =
      jsOrStr (paramsGet u.searchParams "language")
        (paramsGet u.searchParams "locale") := by
    have hy : extractLanguageFromUrl env s =
        jsOrStr (paramsGet u.searchParams "lang")
          (jsOrStr (paramsGet u.searchParams "language")
            (paramsGet u.searchParams "locale")) := by
      simp [extractLanguageFromUrl, hU, hp]
    rw [hy]
    simp only [jsOrStr]
    rw [if_neg (by simp [h1])]
  refine ⟨hx, fun hg hloc => ?_, fun hg hloc => ?_⟩
  · rw [hx]
    simp only [jsOrStr]
    rw [if_neg (by simp [hg]), hloc]
  · rw [hx]
    simp only [jsOrStr]
    rw [if_neg (by simp [hg]), hloc]

/-- Witness for C10: with `lang=`, `language=` and `locale=` all present and
empty, the function returns the empty string via the `locale` fall-through. -/
theorem C10_empty_fallthrough_witness :
    (simpleEnv.hasURL = true ∧
      simpleEnv.parse "https://pay.example/c?lang=&language=&locale=" =
        some ⟨"https", "pay.example", "/c",
          [("lang", ""), ("language", ""), ("locale", "")]⟩ ∧
      paramsGet [("lang", ""), ("language", ""), ("locale", "")] "lang" = some "" ∧
      strTruthy (paramsGet [("lang", ""), ("language", ""), ("locale", "")] "language") =
        false ∧
      paramsGet [("lang", ""), ("language", ""), ("locale", "")] "locale" = some "") ∧
    extractLanguageFromUrl simpleEnv "https://pay.example/c?lang=&language=&locale=" =
      some "" :=
  ⟨⟨by decide, by decide, by decide, by decide, by decide⟩,
    (C10_empty_fallthrough simpleEnv "https://pay.example/c?lang=&language=&locale="
      ⟨"https", "pay.example", "/c", [("lang", ""), ("language", ""), ("locale", "")]⟩
      (by decide) (by decide) (by decide)).2.2 (by decide) (by decide)⟩

/-- The unamended C10 is false in its final clause: with all three candidate
parameters present and empty, the function returns the empty string (the
`locale` value), not null. -/
theorem C10_locale_empty_counterexample :
    simpleEnv.parse "https://pay.example/c?lang=&language=&locale=" =
      some ⟨"https", "pay.example", "/c",
        [("lang", ""), ("language", ""), ("locale", "")]⟩ ∧
    extractLanguageFromUrl simpleEnv "https://pay.example/c?lang=&language=&locale=" ≠
      none := by
  decide

end CheckoutUtils
